import Mathlib

/-!
Verification of `strbot.py` (mozilla-mobile/strbot): a release-automation
script that mirrors localized string resources from a repository's master
branch to a beta release branch and opens a pull request.

The development shallowly embeds the script's logic:
* `android_locale` embeds the Python function of the same name, including the
  exact semantics of `re.match(r"([a-z]+)-([A-Z]+)", locale)` (anchored at the
  start only, greedy character classes, backtracking).
* `sync_strings` / `sync_fenix_strings` embed the orchestrator as pure
  functions from a repository snapshot (modelled as lookup functions, standing
  for the remote GitHub API) to a `RunResult`: the ordered list of mutating
  operations the run performs (create ref / update file / create file /
  create pull request), or an abort with a nonzero exit code.
* Python dicts (`master_files`, `changed_files`) are modelled as
  insertion-ordered association lists with Python's semantics: assigning to an
  existing key replaces the value in place and keeps the key's position.
-/

/-- ASCII lowercase letter, the character class `[a-z]` of the Python regex. -/
def isLowChar (c : Char) : Bool :=
  'a' ≤ c && c ≤ 'z'

/-- ASCII uppercase letter, the character class `[A-Z]` of the Python regex. -/
def isUpChar (c : Char) : Bool :=
  'A' ≤ c && c ≤ 'Z'

/-- Backtracking matcher for `re.match(r"([a-z]+)-([A-Z]+)", s)` once the
maximal `[a-z]+` candidate for group 1 has been taken.  `g1rev` is the current
group-1 candidate in reverse; on failure the candidate is shortened from the
right (never below one character), returning its last character to the input,
exactly as the regex engine backtracks.  Returns `(group1, group2)` on
success.  The pattern has no end anchor, so any remaining input after the
greedy `[A-Z]+` run is ignored. -/
def reMatchAux : List Char → List Char → Option (List Char × List Char)
  | [], _ => none
  | c :: g1rev2, rest =>
    let bt := if g1rev2 = [] then none else reMatchAux g1rev2 (c :: rest)
    match rest with
    | [] => bt
    | r :: rest2 =>
      if r = '-' then
        let g2 := rest2.takeWhile isUpChar
        if g2 = [] then bt else some ((c :: g1rev2).reverse, g2)
      else bt

/-- Semantics of `re.match(r"([a-z]+)-([A-Z]+)", s)`: anchored at the start of
`s`, group 1 starts as the maximal run of lowercase letters (greedy `[a-z]+`),
then the engine backtracks through shorter candidates via `reMatchAux`. -/
def reMatchLocale (s : List Char) : Option (List Char × List Char) :=
  let run := s.takeWhile isLowChar
  if run = [] then none
  else reMatchAux run.reverse (s.dropWhile isLowChar)

/-- Embeds `android_locale` from `strbot.py`: the compatibility-mapping dict
lookup, then the regex rewrite `{g1}-r{g2}`, else the locale unchanged. -/
def android_locale (locale : String) : String :=
  if locale = "he" then "iw"
  else if locale = "yi" then "ji"
  else if locale = "id" then "in"
  else
    match reMatchLocale locale.toList with
    | some (g1, g2) => String.mk g1 ++ "-r" ++ String.mk g2
    | none => locale

/-- Splits `cs` as "nonempty lowercase run, hyphen, nonempty uppercase run,
then anything": the maximal lowercase-letter run at the start (which must be
nonempty), a hyphen, and the maximal uppercase-letter run after it (which
must be nonempty); whatever follows the uppercase run is ignored. -/
def regionSplitLoose (cs : List Char) : Option (List Char × List Char) :=
  let g1 := cs.takeWhile isLowChar
  match cs.dropWhile isLowChar with
  | [] => none
  | r :: rest2 =>
    if r = '-' then
      let g2 := rest2.takeWhile isUpChar
      if g1 = [] ∨ g2 = [] then none else some (g1, g2)
    else none

/-- Splits `cs` as "nonempty lowercase run, hyphen, nonempty uppercase run,
end of string": like `regionSplitLoose` but the uppercase run must reach the
end of the identifier — `cs` is *exactly* of the form `[a-z]+-[A-Z]+`. -/
def regionSplitExact (cs : List Char) : Option (List Char × List Char) :=
  let g1 := cs.takeWhile isLowChar
  match cs.dropWhile isLowChar with
  | [] => none
  | r :: rest2 =>
    if r = '-' then
      let g2 := rest2.takeWhile isUpChar
      let rem := rest2.dropWhile isUpChar
      if g1 = [] ∨ g2 = [] ∨ ¬ (rem = []) then none else some (g1, g2)
    else none

/-- The Locale Code Mapper as the specification's reference definition reads:
the override table, then the rewrite only for identifiers that are *exactly*
of the form lowercase letters, hyphen, uppercase letters, and every other
identifier returned unchanged. -/
def android_locale_claimed (locale : String) : String :=
  if locale = "he" then "iw"
  else if locale = "yi" then "ji"
  else if locale = "id" then "in"
  else
    match regionSplitExact locale.toList with
    | some (g1, g2) => String.mk g1 ++ "-r" ++ String.mk g2
    | none => locale

/-- The Locale Code Mapper as the code actually behaves (the regex is not
anchored at the end): identifiers whose maximal lowercase-letter prefix is
nonempty and is followed by a hyphen and at least one uppercase letter are
rewritten to `prefix-rUPPERRUN`, discarding everything after the uppercase
run; all other identifiers are returned unchanged. -/
def android_locale_loose (locale : String) : String :=
  if locale = "he" then "iw"
  else if locale = "yi" then "ji"
  else if locale = "id" then "in"
  else
    match regionSplitLoose locale.toList with
    | some (g1, g2) => String.mk g1 ++ "-r" ++ String.mk g2
    | none => locale

/-- Embeds the release-branch naming expression of `sync_fenix_strings`:
`releases/v{v}.0.0` for major versions below 85, `releases_v{v}.0.0` for 85
and above. -/
def release_branch_name (fenix_major_version : Nat) : String :=
  if fenix_major_version < 85 then
    "releases/v" ++ toString fenix_major_version ++ ".0.0"
  else
    "releases_v" ++ toString fenix_major_version ++ ".0.0"

/-- Embeds the `master_paths` computation of `sync_strings`: the fixed index
file `l10n.toml` first, then one Android resource path per manifest locale. -/
def master_paths (locales : List String) : List String :=
  "l10n.toml" :: locales.map (fun locale =>
    "app/src/main/res/values-" ++ android_locale locale ++ "/strings.xml")

/-- The name of the source branch, `MASTER_BRANCH_NAME` in `strbot.py`. -/
def MASTER_BRANCH_NAME : String := "master"

/-- A file as returned by the remote content store: content hash (`sha`, the
expected-current-state token of the hosting platform) and the decoded
content.  Two snapshots are equal-for-sync purposes iff their `sha`s match. -/
structure FileEntry where
  sha : String
  content : String
deriving DecidableEq

/-- The author identity passed to file writes, `github.InputGitAuthor`. -/
structure InputGitAuthor where
  name : String
  email : String
deriving DecidableEq

/-- A branch descriptor as returned by `repo.get_branch`: its name and the
commit id of its head (`branch.commit.sha`). -/
structure Branch where
  name : String
  commitSha : String
deriving DecidableEq

/-- The remote repository gateway, modelled as a snapshot: `contents path ref`
is the file at `path` on branch `ref` (`none` for a 404), and `branch name`
is the head commit sha of the branch (`none` if the branch does not exist). -/
structure Repo where
  contents : String → String → Option FileEntry
  branch : String → Option String

/-- A mutating operation issued to the remote host, in the order performed.
`updateFile` carries the expected-current-state token (`sha`) and the author
the code passes; `createFile` carries the author the code passes — which for
this script is none at all, since `repo.create_file` is called without an
`author` argument. -/
inductive Op where
  | createGitRef (ref : String) (sha : String)
  | updateFile (path : String) (message : String) (content : String)
      (sha : String) (branch : String) (author : Option InputGitAuthor)
  | createFile (path : String) (message : String) (content : String)
      (branch : String) (author : Option InputGitAuthor)
  | createPull (title : String) (body : String) (head : String) (base : String)
deriving DecidableEq

/-- Result of a run: either `aborted code ops` (the process called
`sys.exit(code)` or died on an uncaught exception, after performing `ops`) or
`completed ops` (the run returned normally after performing `ops`). -/
inductive RunResult where
  | aborted (exitCode : Nat) (ops : List Op)
  | completed (ops : List Op)
deriving DecidableEq

/-- The operations a run performed, whether or not it aborted. -/
def RunResult.ops : RunResult → List Op
  | .aborted _ ops => ops
  | .completed ops => ops

/-- An insertion-ordered string-keyed dictionary, modelling a Python `dict`:
a list of key-value pairs in insertion order, keys unique. -/
abbrev PyDict (α : Type) : Type := List (String × α)

/-- Whether `needle` is a prefix of `haystack`, character by character. -/
def listStarts : List Char → List Char → Bool
  | [], _ => true
  | _ :: _, [] => false
  | a :: as, b :: bs => a = b && listStarts as bs

/-- Whether `needle` occurs as a contiguous substring of `haystack`: Python's
`needle in haystack` on strings. -/
def listHasSub (needle : List Char) : List Char → Bool
  | [] => listStarts needle []
  | b :: bs => listStarts needle (b :: bs) || listHasSub needle bs

/-- The keys of the dictionary, in insertion order (`d.keys()`). -/
def pyKeys {α : Type} (d : PyDict α) : List String :=
  d.map Prod.fst

/-- Python `d[k] = v`: if `k` is already a key, replace its value in place
(keeping its position in the iteration order); otherwise append `(k, v)`. -/
def pyInsert {α : Type} (d : PyDict α) (k : String) (v : α) : PyDict α :=
  if d.any (fun p => p.1 = k) then
    d.map (fun p => if p.1 = k then (k, v) else p)
  else
    d ++ [(k, v)]

/-- Python `d[k]` as an option (`none` when the key is absent). -/
def pyLookup {α : Type} (d : PyDict α) (k : String) : Option α :=
  match d with
  | [] => none
  | (k2, v) :: rest => if k2 = k then some v else pyLookup rest k

/-- Embeds the `master_files` loop of `sync_strings`: fetch every candidate
path from the master branch into a dict; a missing file means `sys.exit(1)`,
modelled as `none`. -/
def fetchMasterFiles (repo : Repo) : List String → PyDict FileEntry →
    Option (PyDict FileEntry)
  | [], acc => some acc
  | path :: rest, acc =>
    match repo.contents path MASTER_BRANCH_NAME with
    | none => none
    | some c => fetchMasterFiles repo rest (pyInsert acc path c)

/-- The diff condition of `sync_strings` for one path: `not dst or src.sha !=
dst.sha`, where `src` is `master_files[path]` and `dst` the file on the
release branch.  (The `none` source case cannot arise in a run that passed
the master fetch; it yields `false` here.) -/
def pathChanged (repo : Repo) (releaseName : String) (mfiles : PyDict FileEntry)
    (path : String) : Bool :=
  match pyLookup mfiles path with
  | none => false
  | some src =>
    match repo.contents path releaseName with
    | none => true
    | some dst => decide (¬ (src.sha = dst.sha))

/-- Embeds the `changed_files` loop of `sync_strings`: for each candidate
path in order, if the destination is absent or differs from the source,
record `changed_files[path] = dst` (the destination snapshot, possibly
absent). -/
def computeChangedFiles (repo : Repo) (releaseName : String)
    (mfiles : PyDict FileEntry) : List String → PyDict (Option FileEntry) →
    PyDict (Option FileEntry)
  | [], acc => acc
  | path :: rest, acc =>
    let acc2 :=
      if pathChanged repo releaseName mfiles path then
        pyInsert acc path (repo.contents path releaseName)
      else acc
    computeChangedFiles repo releaseName mfiles rest acc2

/-- Embeds the write loop of `sync_strings`: for each path in `changed_files`
iteration order, `update_file` (with the destination's sha as the expected
token and the configured author) when a destination snapshot exists, else
`create_file` (to which the code passes no author).  The source lookup
`master_files[path]` always succeeds in a run that reaches this loop; the
default entry is never used. -/
def applyChanges (mfiles : PyDict FileEntry) (changed : PyDict (Option FileEntry))
    (branchName : String) (author : InputGitAuthor) : List Op :=
  match changed with
  | [] => []
  | (path, dst) :: rest =>
    let src := (pyLookup mfiles path).getD ⟨"", ""⟩
    (match dst with
     | some d => Op.updateFile path ("Strings update - " ++ path) src.content
         d.sha branchName (some author)
     | none => Op.createFile path ("Strings update - " ++ path) src.content
         branchName none)
    :: applyChanges mfiles rest branchName author

/-- Embeds the `list_of_changes` accumulation: one ``" * `{path}`\n"`` bullet
per entry of `changed_files`, in iteration order. -/
def renderChanges (changed : PyDict (Option FileEntry)) : String :=
  changed.foldl (fun s p => s ++ " * `" ++ p.1 ++ "`\n") ""

/-- The pull-request body built by `sync_strings`. -/
def prBody (product_name : String) (release_name : String)
    (list_of_changes : String) : String :=
  "This (automated) patch syncs strings from " ++ product_name ++ " `" ++
    MASTER_BRANCH_NAME ++ "` to `" ++ release_name ++
    "`.\n\nThe following files needed an update:\n\n" ++ list_of_changes

/-- The pull-request title built by `sync_strings`. -/
def prTitle (product_name : String) (major_version : Nat) : String :=
  "String sync for " ++ product_name ++ " v" ++ toString major_version

/-- The working branch name, `strbot/string-import-{int(time.time())}`;
`now` stands for the time-based uniqueness token. -/
def prBranchName (now : Nat) : String :=
  "strbot/string-import-" ++ toString now

/-- Embeds `sync_strings` from `strbot.py`.  `locales` is the `locales` list
of the parsed `l10n-release.toml` manifest (fetching and TOML parsing are the
external collaborators tomlkit / PyGithub).  The function returns the ordered
list of mutating operations issued to the remote host: fetch all candidate
sources (abort with exit code 1 on any missing one), diff against the release
branch, create the working branch at the release head, write each changed
file, and open the pull request — the branch and pull request are created
unconditionally, whether or not `changed_files` is empty. -/
def sync_strings (repo : Repo) (release_branch : Branch) (product_name : String)
    (major_version : Nat) (author : InputGitAuthor) (locales : List String)
    (now : Nat) : RunResult :=
  let paths := master_paths locales
  match fetchMasterFiles repo paths [] with
  | none => RunResult.aborted 1 []
  | some mfiles =>
    let changed := computeChangedFiles repo release_branch.name mfiles paths []
    let branchName := prBranchName now
    let refOp := Op.createGitRef ("refs/heads/" ++ branchName)
      release_branch.commitSha
    let fileOps := applyChanges mfiles changed branchName author
    let prOp := Op.createPull (prTitle product_name major_version)
      (prBody product_name release_branch.name (renderChanges changed))
      branchName release_branch.name
    RunResult.completed (refOp :: fileOps ++ [prOp])

/-- Embeds `sync_fenix_strings` from `strbot.py`: resolve the release branch
from the major version (an uncaught `GithubException` — nonzero exit — if it
does not exist), fetch `version.txt` from it (missing is likewise fatal,
since this call is not wrapped), and proceed into `sync_strings` only when
the version string contains the beta marker `"-beta."`; otherwise log and
return successfully without performing any operation. -/
def sync_fenix_strings (repo : Repo) (fenix_major_version : Nat)
    (author : InputGitAuthor) (locales : List String) (now : Nat) : RunResult :=
  let name := release_branch_name fenix_major_version
  match repo.branch name with
  | none => RunResult.aborted 1 []
  | some headSha =>
    match repo.contents "version.txt" name with
    | none => RunResult.aborted 1 []
    | some version_contents =>
      if listHasSub "-beta.".toList version_contents.content.toList then
        sync_strings repo ⟨name, headSha⟩ "Fenix" fenix_major_version author
          locales now
      else
        RunResult.completed []

/-- The author the operation was attributed to, when it is a file write. -/
def Op.author : Op → Option InputGitAuthor
  | .updateFile _ _ _ _ _ a => a
  | .createFile _ _ _ _ a => a
  | _ => none

/-- The path a file-write operation targets (`""` for other operations). -/
def Op.path : Op → String
  | .updateFile p _ _ _ _ _ => p
  | .createFile p _ _ _ _ => p
  | _ => ""

/-- Whether the operation is a file write (update or create). -/
def Op.isFileWrite : Op → Bool
  | .updateFile _ _ _ _ _ _ => true
  | .createFile _ _ _ _ _ => true
  | _ => false

/-- Whether the operation creates a git ref (a branch). -/
def Op.isRefCreate : Op → Bool
  | .createGitRef _ _ => true
  | _ => false

/-- Whether the operation creates a pull request. -/
def Op.isPullCreate : Op → Bool
  | .createPull _ _ _ _ => true
  | _ => false

/-- Append a key to an ordered key list unless it is already present: how the
key order of a Python dict evolves under assignment. -/
def insertKey (ks : List String) (k : String) : List String :=
  if k ∈ ks then ks else ks ++ [k]

/-- The bullet list the pull-request body renders for a given key order. -/
def bulletsOf (ks : List String) : String :=
  ks.foldl (fun s p => s ++ " * `" ++ p ++ "`\n") ""

/-- The default author configuration of the script. -/
def wAuthor : InputGitAuthor :=
  ⟨"MickeyMoz", "sebastian@mozilla.com"⟩

/-- A concrete file snapshot used in concrete runs. -/
def fileA : FileEntry := ⟨"sha-a", "content-a"⟩

/-- A second concrete file snapshot with a different content hash. -/
def fileB : FileEntry := ⟨"sha-b", "content-b"⟩

/-- A repository with no files and no branches. -/
def emptyRepo : Repo := ⟨fun _ _ => none, fun _ => none⟩

/-- A repository where `l10n.toml` exists with identical content hash on
every branch: the Change Set of a run with an empty locale list is empty. -/
def repoSame : Repo :=
  ⟨fun path _ => if path = "l10n.toml" then some fileA else none,
   fun _ => some "head0"⟩

/-- A repository where `l10n.toml` exists only on `master`: the destination
snapshot is absent, so the run takes the create-file path. -/
def repoCreate : Repo :=
  ⟨fun path ref =>
    if ref = "master" then
      (if path = "l10n.toml" then some fileA else none)
    else none,
   fun _ => some "head0"⟩

/-- A repository for a manifest with the locales `["he", "iw"]`, both of
which map to the same Android resource directory `values-iw`: `master` holds
the index file and the shared resource path, the release branch holds
nothing. -/
def repoDup : Repo :=
  ⟨fun path ref =>
    if ref = "master" then
      (if path = "l10n.toml" then some fileA
       else if path = "app/src/main/res/values-iw/strings.xml" then some fileB
       else none)
    else none,
   fun _ => some "head0"⟩

/-- A repository where `l10n.toml` exists on `master` and, with a different
content hash, on every other branch: the run takes the update-file path. -/
def repoUpdate : Repo :=
  ⟨fun path ref =>
    if path = "l10n.toml" then
      (if ref = "master" then some fileA else some fileB)
    else none,
   fun _ => some "head0"⟩

/-- A repository whose `releases_v87.0.0` branch exists and carries a
`version.txt` without the beta marker. -/
def repoNonBeta : Repo :=
  ⟨fun path ref =>
    if path = "version.txt" ∧ ref = "releases_v87.0.0" then
      some ⟨"sha-v", "87.0.0"⟩
    else none,
   fun name => if name = "releases_v87.0.0" then some "head87" else none⟩


/-- Backtracking never succeeds when the head of the remaining input is a
lowercase letter and every character that can be returned to the input is
lowercase: the literal `-` of the pattern can never match. -/
theorem reMatchAux_lower_none (g1rev : List Char) :
    ∀ (c : Char) (rest : List Char), (∀ x ∈ g1rev, isLowChar x = true) →
    isLowChar c = true → reMatchAux g1rev (c :: rest) = none := by
  induction g1rev with
  | nil =>
    intro c rest _ _
    rfl
  | cons d g1rev2 ih =>
    intro c rest hall hc
    have hcdash : ¬ (c = '-') := by
      intro h
      rw [h] at hc
      exact absurd hc (by decide)
    have hd : isLowChar d = true := hall d (List.mem_cons_self d g1rev2)
    have hall2 : ∀ x ∈ g1rev2, isLowChar x = true := fun x hx =>
      hall x (List.mem_cons_of_mem d hx)
    simp only [reMatchAux, if_neg hcdash]
    by_cases hg : g1rev2 = []
    · simp [hg]
    · simp only [hg, ite_false, if_false]
      exact ih d (c :: rest) hall2 hd

/-- The backtracking regex matcher computes exactly the loose split: maximal
lowercase prefix, hyphen, maximal uppercase run, remainder ignored. -/
theorem reMatchLocale_eq_loose (cs : List Char) :
    reMatchLocale cs = regionSplitLoose cs := by
  have hall : ∀ x ∈ (cs.takeWhile isLowChar).reverse, isLowChar x = true := by
    intro x hx
    exact List.mem_takeWhile_imp (List.mem_reverse.mp hx)
  simp only [reMatchLocale, regionSplitLoose]
  rcases hd : cs.dropWhile isLowChar with _ | ⟨r, rest2⟩
  · by_cases hrun : cs.takeWhile isLowChar = []
    · simp [hrun]
    · rw [if_neg hrun]
      rcases hrev : (cs.takeWhile isLowChar).reverse with _ | ⟨c, g1rev2⟩
      · exact absurd (List.reverse_eq_nil_iff.mp hrev) hrun
      · rw [hrev] at hall
        simp only [reMatchAux]
        by_cases hg : g1rev2 = []
        · simp [hg]
        · simp only [hg, ite_false, if_false]
          exact reMatchAux_lower_none g1rev2 c []
            (fun x hx => hall x (List.mem_cons_of_mem c hx))
            (hall c (List.mem_cons_self c g1rev2))
  · by_cases hrun : cs.takeWhile isLowChar = []
    · simp [hrun]
    · rw [if_neg hrun]
      rcases hrev : (cs.takeWhile isLowChar).reverse with _ | ⟨c, g1rev2⟩
      · exact absurd (List.reverse_eq_nil_iff.mp hrev) hrun
      · rw [hrev] at hall
        have hbt : (if g1rev2 = [] then none
            else reMatchAux g1rev2 (c :: r :: rest2)) = none := by
          by_cases hg : g1rev2 = []
          · simp [hg]
          · simp only [hg, ite_false, if_false]
            exact reMatchAux_lower_none g1rev2 c (r :: rest2)
              (fun x hx => hall x (List.mem_cons_of_mem c hx))
              (hall c (List.mem_cons_self c g1rev2))
        have hrr : (c :: g1rev2).reverse = cs.takeWhile isLowChar := by
          rw [← hrev, List.reverse_reverse]
        by_cases hr : r = '-'
        · subst hr
          simp only [reMatchAux]
          by_cases hg2 : rest2.takeWhile isUpChar = []
          · simp [hg2, hbt]
          · simp [hg2, hrun, hrr]
        · simp only [reMatchAux]
          simp [hr, hbt]

/-- C2 (amended): the Locale Code Mapper equals the loose reference
definition on every string input: override-table identifiers map to their
legacy codes; identifiers whose maximal lowercase-letter prefix is nonempty
and is followed by a hyphen and at least one uppercase letter map to
`prefix-rUPPERRUN` (characters after the uppercase run are dropped, because
the regex is not anchored at the end); every other identifier is returned
unchanged. -/
theorem c2_locale_mapper (locale : String) :
    android_locale locale = android_locale_loose locale := by
  simp only [android_locale, android_locale_loose, reMatchLocale_eq_loose]

/-- C2 counterexample: the claimed reference definition returns `"pt-BRx"`
unchanged (it is not exactly of the form `[a-z]+-[A-Z]+`), but the code
rewrites it to `"pt-rBR"`, so the mapper does not equal the claimed
reference definition on every input. -/
theorem c2_locale_mapper_counterexample :
    android_locale "pt-BRx" ≠ android_locale_claimed "pt-BRx" ∧
    android_locale "pt-BRx" = "pt-rBR" ∧
    android_locale_claimed "pt-BRx" = "pt-BRx" := by
  decide

/-- C4: the release branch name is a pure function of the major version with
a single numeric threshold at 85: below it `releases/v{v}.0.0`, at or above
it `releases_v{v}.0.0`; at the boundary and its neighbors (84, 85, 86) the
two separator styles appear as claimed. -/
theorem c4_release_branch_name :
    (∀ v : Nat, release_branch_name v =
      if v < 85 then "releases/v" ++ toString v ++ ".0.0"
      else "releases_v" ++ toString v ++ ".0.0") ∧
    release_branch_name 84 = "releases/v84.0.0" ∧
    release_branch_name 85 = "releases_v85.0.0" ∧
    release_branch_name 86 = "releases_v86.0.0" := by
  refine ⟨fun v => rfl, ?_, ?_, ?_⟩ <;> decide

/-- C8: the candidate path list is exactly `l10n.toml` first, followed by one
path per manifest locale entry in manifest order, each of the form
`app/src/main/res/values-{m}/strings.xml` with `{m}` the Locale Code Mapper
applied to the locale identifier. -/
theorem c8_candidate_paths (locales : List String) (i : Nat) :
    (master_paths locales).head? = some "l10n.toml" ∧
    (master_paths locales).length = locales.length + 1 ∧
    (master_paths locales)[i + 1]? = (locales[i]?).map (fun locale =>
      "app/src/main/res/values-" ++ android_locale locale ++ "/strings.xml") := by
  refine ⟨rfl, by simp [master_paths], ?_⟩
  simp [master_paths]

/-- The key-membership test `pyInsert` performs agrees with `pyKeys`. -/
theorem pyKeys_mem_any {α : Type} (d : PyDict α) (k : String) :
    (d.any (fun q => q.1 = k)) = true ↔ k ∈ pyKeys d := by
  simp [pyKeys, List.any_eq_true, List.mem_map]

/-- `pyInsert` on a present key is in-place replacement. -/
theorem pyInsert_mem {α : Type} (d : PyDict α) (k : String) (v : α)
    (h : k ∈ pyKeys d) :
    pyInsert d k v = d.map (fun q => if q.1 = k then (k, v) else q) := by
  unfold pyInsert
  rw [if_pos ((pyKeys_mem_any d k).mpr h)]

/-- `pyInsert` on an absent key is an append. -/
theorem pyInsert_notMem {α : Type} (d : PyDict α) (k : String) (v : α)
    (h : ¬ k ∈ pyKeys d) :
    pyInsert d k v = d ++ [(k, v)] := by
  unfold pyInsert
  rw [if_neg (fun hc => h ((pyKeys_mem_any d k).mp hc))]

/-- Replacing the value stored under key `k` does not affect lookups of any
other key. -/
theorem pyLookup_map_replace {α : Type} (k p : String) (v : α)
    (hne : ¬ (k = p)) (d : PyDict α) :
    pyLookup (d.map (fun q => if q.1 = k then (k, v) else q)) p =
      pyLookup d p := by
  induction d with
  | nil => rfl
  | cons hd tl ih =>
    obtain ⟨k2, v2⟩ := hd
    simp only [List.map_cons]
    by_cases hk : k2 = k
    · subst hk
      rw [show (if (k2, v2).1 = k2 then (k2, v) else (k2, v2)) = (k2, v)
        from if_pos rfl]
      simp only [pyLookup]
      rw [if_neg hne, if_neg hne, ih]
    · rw [show (if (k2, v2).1 = k then (k, v) else (k2, v2)) = (k2, v2)
        from if_neg hk]
      simp only [pyLookup]
      by_cases h2 : k2 = p
      · rw [if_pos h2, if_pos h2]
      · rw [if_neg h2, if_neg h2, ih]

/-- Replacing the value stored under a present key `k` makes lookup of `k`
yield the new value. -/
theorem pyLookup_map_replace_self {α : Type} (k : String) (v : α)
    (d : PyDict α) (h : k ∈ pyKeys d) :
    pyLookup (d.map (fun q => if q.1 = k then (k, v) else q)) k = some v := by
  induction d with
  | nil => simp [pyKeys] at h
  | cons hd tl ih =>
    obtain ⟨k2, v2⟩ := hd
    simp only [List.map_cons]
    by_cases hk : k2 = k
    · subst hk
      rw [show (if (k2, v2).1 = k2 then (k2, v) else (k2, v2)) = (k2, v)
        from if_pos rfl]
      simp [pyLookup]
    · have h2 : k ∈ pyKeys tl := by
        simp only [pyKeys, List.map_cons, List.mem_cons] at h
        rcases h with h | h
        · exact absurd h.symm hk
        · exact h
      rw [show (if (k2, v2).1 = k then (k, v) else (k2, v2)) = (k2, v2)
        from if_neg hk]
      simp only [pyLookup]
      rw [if_neg hk, ih h2]

/-- Lookup walks an appended dictionary left to right. -/
theorem pyLookup_append {α : Type} (d e : PyDict α) (p : String) :
    pyLookup (d ++ e) p =
      (match pyLookup d p with
       | some w => some w
       | none => pyLookup e p) := by
  induction d with
  | nil => rfl
  | cons hd tl ih =>
    obtain ⟨k2, v2⟩ := hd
    by_cases h : k2 = p
    · simp [pyLookup, h]
    · simp [pyLookup, h, ih]

/-- Lookup of an absent key yields `none`. -/
theorem pyLookup_eq_none {α : Type} (d : PyDict α) (p : String)
    (h : ¬ p ∈ pyKeys d) :
    pyLookup d p = none := by
  induction d with
  | nil => rfl
  | cons hd tl ih =>
    obtain ⟨k2, v2⟩ := hd
    have h1 : ¬ (k2 = p) := fun hc => h (by simp [pyKeys, hc])
    have h2 : ¬ p ∈ pyKeys tl := fun hc =>
      h (by
        simp only [pyKeys, List.map_cons, List.mem_cons]
        exact Or.inr hc)
    simp [pyLookup, h1, ih h2]

/-- Python dict assignment behaves like a function update with respect to
lookup: `d[k] = v` makes lookup of `k` yield `v` and leaves all other keys
unchanged. -/
theorem pyLookup_pyInsert {α : Type} (d : PyDict α) (k p : String) (v : α) :
    pyLookup (pyInsert d k v) p = if k = p then some v else pyLookup d p := by
  by_cases hmem : k ∈ pyKeys d
  · rw [pyInsert_mem d k v hmem]
    by_cases hkp : k = p
    · subst hkp
      rw [if_pos rfl, pyLookup_map_replace_self k v d hmem]
    · rw [if_neg hkp, pyLookup_map_replace k p v hkp d]
  · rw [pyInsert_notMem d k v hmem, pyLookup_append]
    by_cases hkp : k = p
    · subst hkp
      rw [pyLookup_eq_none d k hmem]
      simp [pyLookup]
    · rw [if_neg hkp]
      cases h : pyLookup d p with
      | some w => simp [h]
      | none => simp [h, pyLookup, hkp]

/-- Replacing values in place does not change the key list. -/
theorem pyKeys_map_replace {α : Type} (k : String) (v : α) (d : PyDict α) :
    pyKeys (d.map (fun q => if q.1 = k then (k, v) else q)) = pyKeys d := by
  simp only [pyKeys, List.map_map]
  apply List.map_congr_left
  intro q _
  by_cases hq : q.1 = k
  · simp [hq]
  · simp [hq]

/-- Python dict assignment evolves the iteration order by `insertKey`:
an existing key keeps its position, a new key is appended. -/
theorem pyKeys_pyInsert {α : Type} (d : PyDict α) (k : String) (v : α) :
    pyKeys (pyInsert d k v) = insertKey (pyKeys d) k := by
  unfold insertKey
  by_cases hmem : k ∈ pyKeys d
  · rw [pyInsert_mem d k v hmem, if_pos hmem, pyKeys_map_replace]
  · rw [pyInsert_notMem d k v hmem, if_neg hmem]
    simp [pyKeys]

/-- Membership in `insertKey`. -/
theorem mem_insertKey (ks : List String) (k x : String) :
    x ∈ insertKey ks k ↔ x ∈ ks ∨ x = k := by
  unfold insertKey
  by_cases h : k ∈ ks
  · rw [if_pos h]
    constructor
    · exact Or.inl
    · rintro (hx | rfl)
      · exact hx
      · exact h
  · rw [if_neg h]
    simp [List.mem_append]

/-- Membership in a fold of `insertKey`: the result holds the seed keys and
the folded keys, nothing else. -/
theorem mem_foldl_insertKey (l : List String) :
    ∀ (acc : List String) (x : String),
      x ∈ l.foldl insertKey acc ↔ x ∈ acc ∨ x ∈ l := by
  induction l with
  | nil =>
    intro acc x
    simp
  | cons a l ih =>
    intro acc x
    rw [List.foldl_cons, ih, mem_insertKey]
    constructor
    · rintro ((hx | rfl) | hx)
      · exact Or.inl hx
      · exact Or.inr (List.mem_cons_self _ _)
      · exact Or.inr (List.mem_cons_of_mem a hx)
    · rintro (hx | hx)
      · exact Or.inl (Or.inl hx)
      · rcases List.mem_cons.mp hx with rfl | hx2
        · exact Or.inl (Or.inr rfl)
        · exact Or.inr hx2

/-- Folding `insertKey` preserves key-list distinctness. -/
theorem nodup_foldl_insertKey (l : List String) :
    ∀ (acc : List String), acc.Nodup → (l.foldl insertKey acc).Nodup := by
  induction l with
  | nil =>
    intro acc h
    exact h
  | cons a l ih =>
    intro acc h
    rw [List.foldl_cons]
    apply ih
    unfold insertKey
    by_cases hm : a ∈ acc
    · rw [if_pos hm]
      exact h
    · rw [if_neg hm]
      simp [List.nodup_append, h, hm]

/-- Folding `insertKey` appends a subsequence of the folded list to the
seed: new keys appear in fold order. -/
theorem foldl_insertKey_sublist (l : List String) :
    ∀ (acc : List String), ∃ t, l.foldl insertKey acc = acc ++ t ∧
      t.Sublist l := by
  induction l with
  | nil =>
    intro acc
    exact ⟨[], by simp, List.nil_sublist []⟩
  | cons a l ih =>
    intro acc
    rw [List.foldl_cons]
    by_cases hm : a ∈ acc
    · rw [show insertKey acc a = acc from by unfold insertKey; rw [if_pos hm]]
      obtain ⟨t, ht, hs⟩ := ih acc
      exact ⟨t, ht, hs.cons a⟩
    · rw [show insertKey acc a = acc ++ [a] from by
        unfold insertKey; rw [if_neg hm]]
      obtain ⟨t, ht, hs⟩ := ih (acc ++ [a])
      refine ⟨a :: t, ?_, hs.cons₂ a⟩
      rw [ht, List.append_assoc, List.singleton_append]

/-- A missing source file for any candidate path makes the master fetch
abort, regardless of what was already fetched. -/
theorem fetchMasterFiles_none (repo : Repo) :
    ∀ (paths : List String) (acc : PyDict FileEntry),
      (∃ p ∈ paths, repo.contents p MASTER_BRANCH_NAME = none) →
      fetchMasterFiles repo paths acc = none := by
  intro paths
  induction paths with
  | nil =>
    rintro acc ⟨p, hp, _⟩
    cases hp
  | cons q rest ih =>
    rintro acc ⟨p, hp, hnone⟩
    rcases List.mem_cons.mp hp with rfl | hp2
    · simp only [fetchMasterFiles, hnone]
    · cases hq : repo.contents q MASTER_BRANCH_NAME with
      | none => simp only [fetchMasterFiles, hq]
      | some c =>
        simp only [fetchMasterFiles, hq]
        exact ih _ ⟨p, hp2, hnone⟩

/-- Invariant of the master fetch: every stored entry is what the master
branch holds at its key, and every fetched path (as well as every key
already present) ends up present. -/
theorem fetchMasterFiles_invariant (repo : Repo) :
    ∀ (paths : List String) (acc mfiles : PyDict FileEntry),
      fetchMasterFiles repo paths acc = some mfiles →
      (∀ p e, pyLookup acc p = some e →
        repo.contents p MASTER_BRANCH_NAME = some e) →
      (∀ p e, pyLookup mfiles p = some e →
        repo.contents p MASTER_BRANCH_NAME = some e) ∧
      (∀ p, ((∃ e, pyLookup acc p = some e) ∨ p ∈ paths) →
        ∃ e, pyLookup mfiles p = some e) := by
  intro paths
  induction paths with
  | nil =>
    intro acc mfiles hfetch hacc
    simp only [fetchMasterFiles, Option.some.injEq] at hfetch
    subst hfetch
    refine ⟨hacc, ?_⟩
    rintro p (he | hp)
    · exact he
    · cases hp
  | cons q rest ih =>
    intro acc mfiles hfetch hacc
    cases hq : repo.contents q MASTER_BRANCH_NAME with
    | none =>
      rw [fetchMasterFiles, hq] at hfetch
      cases hfetch
    | some c =>
      rw [fetchMasterFiles, hq] at hfetch
      have hacc2 : ∀ p e, pyLookup (pyInsert acc q c) p = some e →
          repo.contents p MASTER_BRANCH_NAME = some e := by
        intro p e he
        rw [pyLookup_pyInsert] at he
        by_cases hqp : q = p
        · rw [if_pos hqp] at he
          cases he
          rw [← hqp]
          exact hq
        · rw [if_neg hqp] at he
          exact hacc p e he
      obtain ⟨hagree, hpres⟩ := ih (pyInsert acc q c) mfiles hfetch hacc2
      refine ⟨hagree, ?_⟩
      rintro p (⟨e, he⟩ | hp)
      · refine hpres p (Or.inl ?_)
        rw [pyLookup_pyInsert]
        by_cases hqp : q = p
        · exact ⟨c, by rw [if_pos hqp]⟩
        · exact ⟨e, by rw [if_neg hqp]; exact he⟩
      · rcases List.mem_cons.mp hp with rfl | hp2
        · refine hpres p (Or.inl ?_)
          rw [pyLookup_pyInsert]
          exact ⟨c, by rw [if_pos rfl]⟩
        · exact hpres p (Or.inr hp2)

/-- Soundness of the master fetch from an empty dict: every requested path
is present in the result, bound to exactly the master branch's snapshot. -/
theorem fetchMasterFiles_sound (repo : Repo) (paths : List String)
    (mfiles : PyDict FileEntry)
    (h : fetchMasterFiles repo paths [] = some mfiles)
    (p : String) (hp : p ∈ paths) :
    ∃ e, pyLookup mfiles p = some e ∧
      repo.contents p MASTER_BRANCH_NAME = some e := by
  obtain ⟨hagree, hpres⟩ := fetchMasterFiles_invariant repo paths [] mfiles h
    (fun p e he => by simp [pyLookup] at he)
  obtain ⟨e, he⟩ := hpres p (Or.inr hp)
  exact ⟨e, he, hagree p e he⟩

/-- The key order of `changed_files` is the fold of `insertKey` over the
candidate paths that satisfy the diff condition, in candidate order. -/
theorem computeChangedFiles_keys (repo : Repo) (rel : String)
    (mfiles : PyDict FileEntry) :
    ∀ (paths : List String) (acc : PyDict (Option FileEntry)),
      pyKeys (computeChangedFiles repo rel mfiles paths acc) =
        (paths.filter (fun p => pathChanged repo rel mfiles p)).foldl
          insertKey (pyKeys acc) := by
  intro paths
  induction paths with
  | nil =>
    intro acc
    rfl
  | cons q rest ih =>
    intro acc
    by_cases hq : pathChanged repo rel mfiles q = true
    · rw [List.filter_cons_of_pos hq, List.foldl_cons]
      simp only [computeChangedFiles, hq, if_true]
      rw [ih, pyKeys_pyInsert]
    · rw [List.filter_cons_of_neg (by simpa using hq)]
      simp only [computeChangedFiles, hq, if_false]
      exact ih acc

/-- The diff condition, characterized semantically for a path whose source
snapshot is known: the destination is absent or its hash differs. -/
theorem pathChanged_iff (repo : Repo) (rel : String)
    (mfiles : PyDict FileEntry) (p : String) (s : FileEntry)
    (hs : pyLookup mfiles p = some s) :
    pathChanged repo rel mfiles p = true ↔
      (repo.contents p rel = none ∨
       ∃ d, repo.contents p rel = some d ∧ ¬ (s.sha = d.sha)) := by
  unfold pathChanged
  rw [hs]
  cases hd : repo.contents p rel with
  | none => simp
  | some d => simp

/-- Every operation the write loop emits is a file write. -/
theorem applyChanges_isFileWrite (mfiles : PyDict FileEntry) (b : String)
    (a : InputGitAuthor) :
    ∀ (changed : PyDict (Option FileEntry)) (op : Op),
      op ∈ applyChanges mfiles changed b a → op.isFileWrite = true := by
  intro changed
  induction changed with
  | nil =>
    intro op h
    cases h
  | cons hd tl ih =>
    obtain ⟨p, dst⟩ := hd
    intro op h
    simp only [applyChanges] at h
    rcases List.mem_cons.mp h with rfl | h2
    · cases dst <;> rfl
    · exact ih op h2

/-- The write loop emits exactly one operation per `changed_files` key, in
iteration order, targeting that key's path. -/
theorem applyChanges_map_path (mfiles : PyDict FileEntry) (b : String)
    (a : InputGitAuthor) :
    ∀ (changed : PyDict (Option FileEntry)),
      (applyChanges mfiles changed b a).map Op.path = pyKeys changed := by
  intro changed
  induction changed with
  | nil => rfl
  | cons hd tl ih =>
    obtain ⟨p, dst⟩ := hd
    simp only [applyChanges, List.map_cons, ih]
    cases dst <;> rfl

/-- The operation the write loop emits for an entry of `changed_files`:
an update carrying the destination sha and the configured author when the
destination snapshot exists, else an authorless create. -/
theorem applyChanges_mem (mfiles : PyDict FileEntry) (b : String)
    (a : InputGitAuthor) :
    ∀ (changed : PyDict (Option FileEntry)) (p : String)
      (dst : Option FileEntry) (s : FileEntry),
      (p, dst) ∈ changed → pyLookup mfiles p = some s →
      (match dst with
       | some d => Op.updateFile p ("Strings update - " ++ p) s.content d.sha
           b (some a)
       | none => Op.createFile p ("Strings update - " ++ p) s.content b none)
        ∈ applyChanges mfiles changed b a := by
  intro changed
  induction changed with
  | nil =>
    intro p dst s hmem _
    cases hmem
  | cons hd tl ih =>
    obtain ⟨q, qdst⟩ := hd
    intro p dst s hmem hs
    rcases List.mem_cons.mp hmem with heq | h2
    · injection heq with h1 h2
      subst h1
      subst h2
      simp only [applyChanges, hs, Option.getD_some]
      exact List.mem_cons_self _ _
    · exact List.mem_cons_of_mem _ (ih p dst s h2 hs)

/-- The rendered change list only depends on the key order. -/
theorem renderChanges_eq (changed : PyDict (Option FileEntry)) :
    renderChanges changed = bulletsOf (pyKeys changed) := by
  unfold renderChanges bulletsOf pyKeys
  rw [List.foldl_map]

/-- Unfolding of a run whose master fetch succeeds: one ref creation at the
release head, the write loop's operations, and one pull request, in that
order. -/
theorem sync_strings_completed (repo : Repo) (rb : Branch) (pn : String)
    (mv : Nat) (a : InputGitAuthor) (locales : List String) (now : Nat)
    (mfiles : PyDict FileEntry)
    (h : fetchMasterFiles repo (master_paths locales) [] = some mfiles) :
    sync_strings repo rb pn mv a locales now =
      RunResult.completed
        (Op.createGitRef ("refs/heads/" ++ prBranchName now) rb.commitSha ::
          applyChanges mfiles
            (computeChangedFiles repo rb.name mfiles (master_paths locales) [])
            (prBranchName now) a ++
          [Op.createPull (prTitle pn mv)
            (prBody pn rb.name (renderChanges
              (computeChangedFiles repo rb.name mfiles (master_paths locales) [])))
            (prBranchName now) rb.name]) := by
  simp only [sync_strings]
  rw [h]

/-- Membership in the Change Set's key order: a path is a key of
`changed_files` iff it is a candidate path satisfying the diff condition. -/
theorem changedKeys_mem (repo : Repo) (rel : String)
    (mfiles : PyDict FileEntry) (paths : List String) (p : String) :
    p ∈ pyKeys (computeChangedFiles repo rel mfiles paths []) ↔
      p ∈ paths ∧ pathChanged repo rel mfiles p = true := by
  rw [computeChangedFiles_keys, mem_foldl_insertKey]
  constructor
  · rintro (hk | hk)
    · cases hk
    · exact ⟨(List.mem_filter.mp hk).1, (List.mem_filter.mp hk).2⟩
  · rintro ⟨h1, h2⟩
    exact Or.inr (List.mem_filter.mpr ⟨h1, h2⟩)

/-- A file write is neither a ref creation nor a pull-request creation. -/
theorem isFileWrite_classify (op : Op) (h : op.isFileWrite = true) :
    op.isPullCreate = false ∧ op.isRefCreate = false := by
  cases op <;> simp_all [Op.isFileWrite, Op.isPullCreate, Op.isRefCreate]

/-- C1 counterexample: in a run whose Change Set is empty (the only
candidate path has the same content hash on master and on the release
branch), the code still creates the working branch and a pull request —
branch and pull-request creation are unconditional. -/
theorem c1_counterexample :
    fetchMasterFiles repoSame (master_paths []) [] =
      some [("l10n.toml", fileA)] ∧
    computeChangedFiles repoSame "releases_v87.0.0" [("l10n.toml", fileA)]
      (master_paths []) [] = [] ∧
    ((sync_strings repoSame ⟨"releases_v87.0.0", "head0"⟩ "Fenix" 87 wAuthor
        [] 5).ops.any (fun op => op.isRefCreate)) = true ∧
    ((sync_strings repoSame ⟨"releases_v87.0.0", "head0"⟩ "Fenix" 87 wAuthor
        [] 5).ops.any (fun op => op.isPullCreate)) = true := by
  decide

/-- C1 (amended): when the computed Change Set is empty, the run performs no
file write, but it still creates the working branch at the release head and
opens a pull request whose body lists no changes — exactly these two
operations occur. -/
theorem c1_empty_changeset (repo : Repo) (rb : Branch) (pn : String)
    (mv : Nat) (a : InputGitAuthor) (locales : List String) (now : Nat)
    (mfiles : PyDict FileEntry)
    (h : fetchMasterFiles repo (master_paths locales) [] = some mfiles)
    (hempty : computeChangedFiles repo rb.name mfiles (master_paths locales) []
      = []) :
    sync_strings repo rb pn mv a locales now =
      RunResult.completed
        [Op.createGitRef ("refs/heads/" ++ prBranchName now) rb.commitSha,
         Op.createPull (prTitle pn mv) (prBody pn rb.name "")
           (prBranchName now) rb.name] := by
  rw [sync_strings_completed repo rb pn mv a locales now mfiles h, hempty]
  rfl

/-- C1 witness: a concrete empty-Change-Set run, evaluated. -/
theorem c1_empty_changeset_witness :
    fetchMasterFiles repoSame (master_paths []) [] =
      some [("l10n.toml", fileA)] ∧
    computeChangedFiles repoSame "releases_v87.0.0" [("l10n.toml", fileA)]
      (master_paths []) [] = [] ∧
    sync_strings repoSame ⟨"releases_v87.0.0", "head0"⟩ "Fenix" 87 wAuthor [] 5
      = RunResult.completed
          [Op.createGitRef ("refs/heads/" ++ prBranchName 5) "head0",
           Op.createPull (prTitle "Fenix" 87)
             (prBody "Fenix" "releases_v87.0.0" "") (prBranchName 5)
             "releases_v87.0.0"] :=
  ⟨by decide, by decide,
   c1_empty_changeset repoSame ⟨"releases_v87.0.0", "head0"⟩ "Fenix" 87
     wAuthor [] 5 [("l10n.toml", fileA)] (by decide) (by decide)⟩

/-- C5: if the version descriptor fetched from the target release branch
does not contain the beta marker `-beta.`, the run performs zero operations
and terminates successfully. -/
theorem c5_non_beta_noop (repo : Repo) (v : Nat) (a : InputGitAuthor)
    (locales : List String) (now : Nat) (headSha : String) (vc : FileEntry)
    (hb : repo.branch (release_branch_name v) = some headSha)
    (hv : repo.contents "version.txt" (release_branch_name v) = some vc)
    (hbeta : listHasSub "-beta.".toList vc.content.toList = false) :
    sync_fenix_strings repo v a locales now = RunResult.completed [] := by
  simp only [sync_fenix_strings, hb, hv]
  have hcond : ¬ (listHasSub "-beta.".toList vc.content.toList = true) := by
    rw [hbeta]
    exact Bool.false_ne_true
  rw [if_neg hcond]

/-- C5 witness: a concrete non-beta release branch, evaluated. -/
theorem c5_non_beta_noop_witness :
    repoNonBeta.branch (release_branch_name 87) = some "head87" ∧
    repoNonBeta.contents "version.txt" (release_branch_name 87) =
      some ⟨"sha-v", "87.0.0"⟩ ∧
    listHasSub "-beta.".toList (FileEntry.mk "sha-v" "87.0.0").content.toList
      = false ∧
    sync_fenix_strings repoNonBeta 87 wAuthor ["de"] 5 =
      RunResult.completed [] :=
  ⟨by decide, by decide, by decide,
   c5_non_beta_noop repoNonBeta 87 wAuthor ["de"] 5 "head87" ⟨"sha-v", "87.0.0"⟩
     (by decide) (by decide) (by decide)⟩

/-- C7: if any candidate path fails to resolve to a source snapshot on the
master branch, the run aborts with exit code 1 having performed no
operation at all — no ref creation, no file write, no pull request. -/
theorem c7_missing_source_aborts (repo : Repo) (rb : Branch) (pn : String)
    (mv : Nat) (a : InputGitAuthor) (locales : List String) (now : Nat)
    (h : ∃ p ∈ master_paths locales,
      repo.contents p MASTER_BRANCH_NAME = none) :
    sync_strings repo rb pn mv a locales now = RunResult.aborted 1 [] := by
  simp only [sync_strings]
  rw [fetchMasterFiles_none repo (master_paths locales) [] h]

/-- C7 witness: a repository with no master files, evaluated. -/
theorem c7_missing_source_aborts_witness :
    (∃ p ∈ master_paths [], emptyRepo.contents p MASTER_BRANCH_NAME = none) ∧
    sync_strings emptyRepo ⟨"releases_v87.0.0", "c0"⟩ "Fenix" 87 wAuthor [] 5
      = RunResult.aborted 1 [] :=
  ⟨⟨"l10n.toml", by decide, rfl⟩,
   c7_missing_source_aborts emptyRepo ⟨"releases_v87.0.0", "c0"⟩ "Fenix" 87
     wAuthor [] 5 ⟨"l10n.toml", by decide, rfl⟩⟩

/-- C3 counterexample: in a concrete run where the destination snapshot is
absent, the file is created by `create_file` *without* any author argument,
so this write is not attributed to the configured author identity — the
claim that every write (update and create alike) carries the configured
author fails. -/
theorem c3_counterexample :
    Op.createFile "l10n.toml" "Strings update - l10n.toml" "content-a"
        "strbot/string-import-5" none
      ∈ (sync_strings repoCreate ⟨"releases_v87.0.0", "head0"⟩ "Fenix" 87
          wAuthor [] 5).ops ∧
    (Op.createFile "l10n.toml" "Strings update - l10n.toml" "content-a"
        "strbot/string-import-5" none).author ≠ some wAuthor := by
  decide

/-- C3 (amended): for each entry of the Change Set, if a destination
snapshot exists the run updates the file on the working branch with the
source content, using the destination's content hash as the
expected-current-state token and attributing the write to the configured
author; if the destination is absent the file is created fresh with no
author attribution.  Every write carries a commit message naming the
path. -/
theorem c3_write_operations (repo : Repo) (rb : Branch) (pn : String)
    (mv : Nat) (a : InputGitAuthor) (locales : List String) (now : Nat)
    (mfiles : PyDict FileEntry)
    (h : fetchMasterFiles repo (master_paths locales) [] = some mfiles) :
    ∀ (p : String) (dst : Option FileEntry),
      (p, dst) ∈ computeChangedFiles repo rb.name mfiles
        (master_paths locales) [] →
      ∃ s, repo.contents p MASTER_BRANCH_NAME = some s ∧
        ((∃ d, dst = some d ∧
            Op.updateFile p ("Strings update - " ++ p) s.content d.sha
              (prBranchName now) (some a)
              ∈ (sync_strings repo rb pn mv a locales now).ops) ∨
         (dst = none ∧
            Op.createFile p ("Strings update - " ++ p) s.content
              (prBranchName now) none
              ∈ (sync_strings repo rb pn mv a locales now).ops)) := by
  intro p dst hmem
  have hkey : p ∈ pyKeys (computeChangedFiles repo rb.name mfiles
      (master_paths locales) []) :=
    List.mem_map_of_mem Prod.fst hmem
  have hpaths : p ∈ master_paths locales :=
    ((changedKeys_mem repo rb.name mfiles (master_paths locales) p).mp hkey).1
  obtain ⟨s, hs, hms⟩ :=
    fetchMasterFiles_sound repo (master_paths locales) mfiles h p hpaths
  refine ⟨s, hms, ?_⟩
  have hop := applyChanges_mem mfiles (prBranchName now) a
    (computeChangedFiles repo rb.name mfiles (master_paths locales) [])
    p dst s hmem hs
  rw [sync_strings_completed repo rb pn mv a locales now mfiles h]
  cases dst with
  | some d =>
    refine Or.inl ⟨d, rfl, ?_⟩
    simp only [RunResult.ops]
    exact List.mem_cons_of_mem _ (List.mem_append_left _ hop)
  | none =>
    refine Or.inr ⟨rfl, ?_⟩
    simp only [RunResult.ops]
    exact List.mem_cons_of_mem _ (List.mem_append_left _ hop)

/-- C3 witness: a concrete run whose only changed path has a destination
snapshot, evaluated: the update carries the destination sha and the
configured author. -/
theorem c3_write_operations_witness :
    ("l10n.toml", some fileB) ∈ computeChangedFiles repoUpdate
      "releases_v87.0.0" [("l10n.toml", fileA)] (master_paths []) [] ∧
    (∃ s, repoUpdate.contents "l10n.toml" MASTER_BRANCH_NAME = some s ∧
      ((∃ d, (some fileB : Option FileEntry) = some d ∧
          Op.updateFile "l10n.toml" ("Strings update - " ++ "l10n.toml")
            s.content d.sha (prBranchName 5) (some wAuthor)
            ∈ (sync_strings repoUpdate ⟨"releases_v87.0.0", "head0"⟩ "Fenix"
                87 wAuthor [] 5).ops) ∨
       ((some fileB : Option FileEntry) = none ∧
          Op.createFile "l10n.toml" ("Strings update - " ++ "l10n.toml")
            s.content (prBranchName 5) none
            ∈ (sync_strings repoUpdate ⟨"releases_v87.0.0", "head0"⟩ "Fenix"
                87 wAuthor [] 5).ops))) :=
  ⟨by decide,
   c3_write_operations repoUpdate ⟨"releases_v87.0.0", "head0"⟩ "Fenix" 87
     wAuthor [] 5 [("l10n.toml", fileA)] (by decide) "l10n.toml" (some fileB)
     (by decide)⟩

/-- C6: the Change Set is a subset of the candidate paths, and a candidate
path is in the Change Set iff its destination snapshot on the release
branch is absent or its content hash differs from the source snapshot's. -/
theorem c6_changeset_characterization (repo : Repo) (rb : Branch)
    (locales : List String) (mfiles : PyDict FileEntry)
    (h : fetchMasterFiles repo (master_paths locales) [] = some mfiles) :
    (∀ p, p ∈ pyKeys (computeChangedFiles repo rb.name mfiles
        (master_paths locales) []) → p ∈ master_paths locales) ∧
    (∀ p, p ∈ pyKeys (computeChangedFiles repo rb.name mfiles
        (master_paths locales) []) ↔
      (p ∈ master_paths locales ∧ ∃ s,
        repo.contents p MASTER_BRANCH_NAME = some s ∧
        (repo.contents p rb.name = none ∨
         ∃ d, repo.contents p rb.name = some d ∧ ¬ (s.sha = d.sha)))) := by
  constructor
  · intro p hp
    exact ((changedKeys_mem repo rb.name mfiles (master_paths locales) p).mp
      hp).1
  · intro p
    rw [changedKeys_mem repo rb.name mfiles (master_paths locales) p]
    constructor
    · rintro ⟨h1, h2⟩
      obtain ⟨s, hs, hms⟩ :=
        fetchMasterFiles_sound repo (master_paths locales) mfiles h p h1
      exact ⟨h1, s, hms,
        (pathChanged_iff repo rb.name mfiles p s hs).mp h2⟩
    · rintro ⟨h1, s, hms, hcond⟩
      obtain ⟨s2, hs2, hms2⟩ :=
        fetchMasterFiles_sound repo (master_paths locales) mfiles h p h1
      rw [hms] at hms2
      injection hms2 with he
      subst he
      exact ⟨h1, (pathChanged_iff repo rb.name mfiles p s hs2).mpr hcond⟩

/-- C6 witness: the characterization evaluated at the shared `values-iw`
path of a manifest whose two locales map to the same directory. -/
theorem c6_changeset_characterization_witness :
    "app/src/main/res/values-iw/strings.xml" ∈
      pyKeys (computeChangedFiles repoDup "releases_v87.0.0"
        [("l10n.toml", fileA), ("app/src/main/res/values-iw/strings.xml",
          fileB)] (master_paths ["he", "iw"]) []) ↔
      ("app/src/main/res/values-iw/strings.xml" ∈ master_paths ["he", "iw"] ∧
        ∃ s, repoDup.contents "app/src/main/res/values-iw/strings.xml"
            MASTER_BRANCH_NAME = some s ∧
          (repoDup.contents "app/src/main/res/values-iw/strings.xml"
              "releases_v87.0.0" = none ∨
           ∃ d, repoDup.contents "app/src/main/res/values-iw/strings.xml"
              "releases_v87.0.0" = some d ∧ ¬ (s.sha = d.sha))) :=
  (c6_changeset_characterization repoDup ⟨"releases_v87.0.0", "head0"⟩
    ["he", "iw"]
    [("l10n.toml", fileA), ("app/src/main/res/values-iw/strings.xml", fileB)]
    (by decide)).2 "app/src/main/res/values-iw/strings.xml"

/-- In a completed trace, the only pull-request creation is the final one. -/
theorem trace_filter_pull (fileOps : List Op)
    (hmid : ∀ op ∈ fileOps, op.isFileWrite = true)
    (r rs t b hd bs : String) :
    ((Op.createGitRef r rs :: fileOps ++ [Op.createPull t b hd bs]).filter
      (fun op => op.isPullCreate)) = [Op.createPull t b hd bs] := by
  rw [List.filter_append, List.filter_cons,
    List.filter_eq_nil_iff.mpr (fun op hop => by
      rw [(isFileWrite_classify op (hmid op hop)).1]
      exact Bool.false_ne_true)]
  simp [Op.isPullCreate, List.filter_cons]

/-- In a completed trace, the only ref creation is the initial one. -/
theorem trace_filter_ref (fileOps : List Op)
    (hmid : ∀ op ∈ fileOps, op.isFileWrite = true)
    (r rs t b hd bs : String) :
    ((Op.createGitRef r rs :: fileOps ++ [Op.createPull t b hd bs]).filter
      (fun op => op.isRefCreate)) = [Op.createGitRef r rs] := by
  rw [List.filter_append, List.filter_cons,
    List.filter_eq_nil_iff.mpr (fun op hop => by
      rw [(isFileWrite_classify op (hmid op hop)).2]
      exact Bool.false_ne_true)]
  simp [Op.isRefCreate, List.filter_cons]

/-- In a completed trace, the file writes are exactly the middle block. -/
theorem trace_filter_write (fileOps : List Op)
    (hmid : ∀ op ∈ fileOps, op.isFileWrite = true)
    (r rs t b hd bs : String) :
    ((Op.createGitRef r rs :: fileOps ++ [Op.createPull t b hd bs]).filter
      (fun op => op.isFileWrite)) = fileOps := by
  rw [List.filter_append, List.filter_cons, List.filter_eq_self.mpr hmid]
  simp [Op.isFileWrite, List.filter_cons]

/-- C9: in a run where every candidate source fetch succeeds and at least
one path differs, exactly one pull request is created, with head the
working branch and base the release branch, titled after the product and
major version, and its body renders one bullet per Change Set path; the
Change Set key order is duplicate-free, is a subsequence of the candidate
paths (candidate-path order), and holds exactly the candidates satisfying
the diff condition; exactly one working branch is created. -/
theorem c9_pull_request (repo : Repo) (rb : Branch) (pn : String) (mv : Nat)
    (a : InputGitAuthor) (locales : List String) (now : Nat)
    (mfiles : PyDict FileEntry)
    (h : fetchMasterFiles repo (master_paths locales) [] = some mfiles)
    (hdiff : ∃ p ∈ master_paths locales,
      pathChanged repo rb.name mfiles p = true) :
    ((sync_strings repo rb pn mv a locales now).ops.filter
        (fun op => op.isPullCreate)) =
      [Op.createPull (prTitle pn mv)
        (prBody pn rb.name (bulletsOf (pyKeys (computeChangedFiles repo
          rb.name mfiles (master_paths locales) []))))
        (prBranchName now) rb.name] ∧
    ((sync_strings repo rb pn mv a locales now).ops.filter
        (fun op => op.isRefCreate)) =
      [Op.createGitRef ("refs/heads/" ++ prBranchName now) rb.commitSha] ∧
    (pyKeys (computeChangedFiles repo rb.name mfiles
        (master_paths locales) [])).Nodup ∧
    List.Sublist (pyKeys (computeChangedFiles repo rb.name mfiles
        (master_paths locales) [])) (master_paths locales) ∧
    (∀ p, p ∈ pyKeys (computeChangedFiles repo rb.name mfiles
        (master_paths locales) []) ↔
      (p ∈ master_paths locales ∧ pathChanged repo rb.name mfiles p = true)) ∧
    pyKeys (computeChangedFiles repo rb.name mfiles (master_paths locales) [])
      ≠ [] := by
  have hmid := applyChanges_isFileWrite mfiles (prBranchName now) a
    (computeChangedFiles repo rb.name mfiles (master_paths locales) [])
  have hops : (sync_strings repo rb pn mv a locales now).ops =
      Op.createGitRef ("refs/heads/" ++ prBranchName now) rb.commitSha ::
        applyChanges mfiles
          (computeChangedFiles repo rb.name mfiles (master_paths locales) [])
          (prBranchName now) a ++
        [Op.createPull (prTitle pn mv)
          (prBody pn rb.name (bulletsOf (pyKeys (computeChangedFiles repo
            rb.name mfiles (master_paths locales) []))))
          (prBranchName now) rb.name] := by
    rw [sync_strings_completed repo rb pn mv a locales now mfiles h,
      renderChanges_eq]
    rfl
  refine ⟨?_, ?_, ?_, ?_, ?_, ?_⟩
  · rw [hops]
    exact trace_filter_pull _ hmid _ _ _ _ _ _
  · rw [hops]
    exact trace_filter_ref _ hmid _ _ _ _ _ _
  · rw [computeChangedFiles_keys]
    exact nodup_foldl_insertKey _ _ List.nodup_nil
  · rw [computeChangedFiles_keys]
    obtain ⟨t, ht, hs⟩ := foldl_insertKey_sublist
      (List.filter (fun p => pathChanged repo rb.name mfiles p)
        (master_paths locales)) (pyKeys ([] : PyDict (Option FileEntry)))
    rw [ht]
    simp only [pyKeys, List.map_nil, List.nil_append]
    exact hs.trans (List.filter_sublist _)
  · intro p
    exact changedKeys_mem repo rb.name mfiles (master_paths locales) p
  · obtain ⟨p, hp, hcond⟩ := hdiff
    exact List.ne_nil_of_mem
      ((changedKeys_mem repo rb.name mfiles (master_paths locales) p).mpr
        ⟨hp, hcond⟩)

/-- C9 witness: the run over the duplicate-mapping manifest, whose pull
request is unique and lists each changed path once. -/
theorem c9_pull_request_witness :
    ((sync_strings repoDup ⟨"releases_v87.0.0", "head0"⟩ "Fenix" 87 wAuthor
        ["he", "iw"] 7).ops.filter (fun op => op.isPullCreate)) =
      [Op.createPull (prTitle "Fenix" 87)
        (prBody "Fenix" "releases_v87.0.0" (bulletsOf (pyKeys
          (computeChangedFiles repoDup "releases_v87.0.0"
            [("l10n.toml", fileA),
             ("app/src/main/res/values-iw/strings.xml", fileB)]
            (master_paths ["he", "iw"]) []))))
        (prBranchName 7) "releases_v87.0.0"] :=
  (c9_pull_request repoDup ⟨"releases_v87.0.0", "head0"⟩ "Fenix" 87 wAuthor
    ["he", "iw"] 7
    [("l10n.toml", fileA), ("app/src/main/res/values-iw/strings.xml", fileB)]
    (by decide) ⟨"l10n.toml", by decide, by decide⟩).1

/-- C10: everything is keyed by path: the Change Set key order is
duplicate-free even when the manifest has duplicate locale entries or two
locales map to the same resource directory, the run performs exactly one
file write per distinct changed path (in that key order), and the
pull-request body renders exactly one bullet per distinct changed path. -/
theorem c10_path_keyed (repo : Repo) (rb : Branch) (pn : String) (mv : Nat)
    (a : InputGitAuthor) (locales : List String) (now : Nat)
    (mfiles : PyDict FileEntry)
    (h : fetchMasterFiles repo (master_paths locales) [] = some mfiles) :
    (pyKeys (computeChangedFiles repo rb.name mfiles
        (master_paths locales) [])).Nodup ∧
    (((sync_strings repo rb pn mv a locales now).ops.filter
        (fun op => op.isFileWrite)).map Op.path) =
      pyKeys (computeChangedFiles repo rb.name mfiles
        (master_paths locales) []) ∧
    renderChanges (computeChangedFiles repo rb.name mfiles
        (master_paths locales) []) =
      bulletsOf (pyKeys (computeChangedFiles repo rb.name mfiles
        (master_paths locales) [])) := by
  have hmid := applyChanges_isFileWrite mfiles (prBranchName now) a
    (computeChangedFiles repo rb.name mfiles (master_paths locales) [])
  refine ⟨?_, ?_, ?_⟩
  · rw [computeChangedFiles_keys]
    exact nodup_foldl_insertKey _ _ List.nodup_nil
  · rw [sync_strings_completed repo rb pn mv a locales now mfiles h]
    simp only [RunResult.ops]
    rw [trace_filter_write _ hmid _ _ _ _ _ _]
    exact applyChanges_map_path mfiles (prBranchName now) a _
  · exact renderChanges_eq _

/-- C10 witness: the duplicate-mapping manifest run, evaluated. -/
theorem c10_path_keyed_witness :
    (pyKeys (computeChangedFiles repoDup "releases_v87.0.0"
        [("l10n.toml", fileA), ("app/src/main/res/values-iw/strings.xml",
          fileB)] (master_paths ["he", "iw"]) [])).Nodup ∧
    (((sync_strings repoDup ⟨"releases_v87.0.0", "head0"⟩ "Fenix" 87 wAuthor
        ["he", "iw"] 7).ops.filter (fun op => op.isFileWrite)).map Op.path) =
      pyKeys (computeChangedFiles repoDup "releases_v87.0.0"
        [("l10n.toml", fileA), ("app/src/main/res/values-iw/strings.xml",
          fileB)] (master_paths ["he", "iw"]) []) ∧
    renderChanges (computeChangedFiles repoDup "releases_v87.0.0"
        [("l10n.toml", fileA), ("app/src/main/res/values-iw/strings.xml",
          fileB)] (master_paths ["he", "iw"]) []) =
      bulletsOf (pyKeys (computeChangedFiles repoDup "releases_v87.0.0"
        [("l10n.toml", fileA), ("app/src/main/res/values-iw/strings.xml",
          fileB)] (master_paths ["he", "iw"]) [])) :=
  c10_path_keyed repoDup ⟨"releases_v87.0.0", "head0"⟩ "Fenix" 87 wAuthor
    ["he", "iw"] 7
    [("l10n.toml", fileA), ("app/src/main/res/values-iw/strings.xml", fileB)]
    (by decide)
